import Mathlib

/-!
Shallow embedding of the QUIC listener / connection-ID core
(`internal/quic/conn_id.go` and the listener file) and proofs about it.

Bytes are modelled as `Nat`, byte strings as `List Nat`, Go `int64` as `Int`.
Connection-ID-table mutations, which the Go code enqueues as closures on the
listener's `connsMap`, are modelled as an emitted list of `TableOp` values in
the order the code enqueues them.
-/

namespace QuicNet

/-- CID length for locally issued connection IDs (spec: fixed at 8 bytes). -/
def connIDLen : Nat := 8

/-- Stateless reset token length (spec: 16 bytes). -/
def statelessResetTokenLen : Nat := 16

/-- A connection ID and associated metadata (Go struct `connID`).
`sendPending` models the `send` sent-value being in the needs-sending state
(`send.setUnsent()` in the source sets it). -/
structure ConnID where
  cid : List Nat
  seq : Int
  retired : Bool
  sendPending : Bool
deriving DecidableEq, Repr

/-- A remote connection ID: a `ConnID` plus the peer-supplied stateless reset
token (Go struct `remoteConnID`). -/
structure RemoteConnID extends ConnID where
  resetToken : List Nat
deriving DecidableEq, Repr

/-- A mutation of the listener's connection table, in the order the connection
enqueues it via `updateConnIDs` (Go `connsMap` operations). -/
inductive TableOp
  | addConnID (cid : List Nat)
  | retireConnID (cid : List Nat)
  | addResetToken (token : List Nat)
  | retireResetToken (token : List Nat)
deriving DecidableEq, Repr

/-- The transport error codes produced by the connection-ID state machine
(Go `localTransportError` values `errProtocolViolation`, `errConnectionIDLimit`). -/
inductive TransportError
  | protocolViolation
  | connectionIDLimit
deriving DecidableEq, Repr

/-- A conn's connection IDs (Go struct `connIDState`). The Go field `local` is
named `locals` here because `local` is a Lean keyword. -/
structure ConnIDState where
  locals : List ConnID
  remote : List RemoteConnID
  nextLocalSeq : Int
  retireRemotePriorTo : Int
  peerActiveConnIDLimit : Int
  needSend : Bool
deriving DecidableEq, Repr

/-- `retireRemote` marks a remote connection ID as retired
(`rcid.retired = true`, `rcid.send.setUnsent()`; `needSend` handled by callers). -/
def retireRemoteEntry (r : RemoteConnID) : RemoteConnID :=
  { r with retired := true, sendPending := true }

/-- Result of the pass over `s.remote` inside `handleNewConnID`:
the updated entries, the enqueued table operations, the `have` flag
(`haveSeq`), the `active` counter, whether any entry was retired
(which sets `needSend`), and whether the loop returned early with a
PROTOCOL_VIOLATION (duplicate sequence number with a different CID). -/
structure PassResult where
  rest : List RemoteConnID
  ops : List TableOp
  haveSeq : Bool
  active : Nat
  needSend : Bool
  err : Bool
deriving DecidableEq, Repr

/-- The `for i := range s.remote` loop of `handleNewConnID`: retire
non-retired entries with `0 ≤ seq < retireRemotePriorTo` (enqueuing
`retireResetToken`), count active entries, detect the incoming sequence
number, and abort with an error on a CID mismatch for a duplicate
sequence number (leaving the remaining entries unprocessed, as the Go
early `return` does). -/
def processRemote (rrpt seq : Int) (cid : List Nat) :
    List RemoteConnID → PassResult
  | [] => ⟨[], [], false, 0, false, false⟩
  | r :: rs =>
    let doRetire := !r.retired && decide (0 ≤ r.seq) && decide (r.seq < rrpt)
    let r1 := if doRetire then retireRemoteEntry r else r
    let ops1 := if doRetire then [TableOp.retireResetToken r.resetToken] else []
    let act1 : Nat := if r1.retired then 0 else 1
    if r1.seq = seq ∧ r1.cid ≠ cid then
      ⟨r1 :: rs, ops1, false, act1, doRetire, true⟩
    else
      let res := processRemote rrpt seq cid rs
      ⟨r1 :: res.rest, ops1 ++ res.ops, decide (r1.seq = seq) || res.haveSeq,
        act1 + res.active, doRetire || res.needSend, res.err⟩

/-- The final two checks of `handleNewConnID` (Go lines checking
`active > activeConnIDLimit` and `len(s.remote) > 4*activeConnIDLimit`),
applied to the state after the pass and the possible append. -/
def finishNewConnID (activeLimit : Nat) (s2 : ConnIDState) (ops : List TableOp)
    (active : Nat) : ConnIDState × List TableOp × Option TransportError :=
  if active > activeLimit then (s2, ops, some TransportError.connectionIDLimit)
  else if s2.remote.length > 4 * activeLimit then
    (s2, ops, some TransportError.connectionIDLimit)
  else (s2, ops, none)

/-- `handleNewConnID(c, seq, retire, cid, resetToken)` from `conn_id.go`.
The Go code reads `s.remote[0]` unconditionally; the out-of-range panic on an
empty `remote` is modelled as `none`. Otherwise the result is the mutated
state (Go mutates `s` in place, so the state persists on error returns),
the enqueued table operations, and the error, if any.
`activeLimit` stands for the Go constant `activeConnIDLimit`. -/
def handleNewConnID (activeLimit : Nat) (s : ConnIDState) (seq retire : Int)
    (cid : List Nat) (resetToken : List Nat) :
    Option (ConnIDState × List TableOp × Option TransportError) :=
  match s.remote with
  | [] => none
  | r0 :: _ =>
    some <|
    if r0.cid = [] then (s, [], some TransportError.protocolViolation)
    else
      let rrpt := max s.retireRemotePriorTo retire
      let res := processRemote rrpt seq cid s.remote
      let s1 : ConnIDState :=
        { s with remote := res.rest, retireRemotePriorTo := rrpt,
                 needSend := s.needSend || res.needSend }
      if res.err then (s1, res.ops, some TransportError.protocolViolation)
      else if res.haveSeq then finishNewConnID activeLimit s1 res.ops res.active
      else if seq < rrpt then
        finishNewConnID activeLimit
          { s1 with
              remote := s1.remote ++
                [{ cid := cid, seq := seq, retired := true, sendPending := true,
                   resetToken := resetToken }],
              needSend := true }
          res.ops res.active
      else
        finishNewConnID activeLimit
          { s1 with
              remote := s1.remote ++
                [{ cid := cid, seq := seq, retired := false, sendPending := false,
                   resetToken := resetToken }] }
          (res.ops ++ [TableOp.addResetToken resetToken]) (res.active + 1)

/-- State for the non-atomicity scenarios: two live remote CIDs with
sequence numbers 0 and 1. -/
def c9StateA : ConnIDState :=
  { locals := [], remote := [⟨⟨[1], 0, false, false⟩, [10]⟩, ⟨⟨[2], 1, false, false⟩, [11]⟩],
    nextLocalSeq := 1, retireRemotePriorTo := 0, peerActiveConnIDLimit := 2, needSend := false }

/-- State for the limit-error non-atomicity scenario: three live remote CIDs. -/
def c9StateB : ConnIDState :=
  { locals := [],
    remote := [⟨⟨[1], 0, false, false⟩, [10]⟩, ⟨⟨[2], 1, false, false⟩, [11]⟩,
               ⟨⟨[3], 2, false, false⟩, [12]⟩],
    nextLocalSeq := 1, retireRemotePriorTo := 0, peerActiveConnIDLimit := 2, needSend := false }

/-- Counterexample state for the retirement-pass claim: a single non-retired
remote entry with the transient sequence number -1 (and a non-empty CID). -/
def cexS1 : ConnIDState :=
  { locals := [], remote := [⟨⟨[1], -1, false, false⟩, [30]⟩],
    nextLocalSeq := 1, retireRemotePriorTo := 0, peerActiveConnIDLimit := 2, needSend := false }

/-- Witness state for the retirement-pass claim: two live remote entries. -/
def c1w : ConnIDState :=
  { locals := [], remote := [⟨⟨[5], 0, false, false⟩, [20]⟩, ⟨⟨[6], 1, false, false⟩, [21]⟩],
    nextLocalSeq := 1, retireRemotePriorTo := 0, peerActiveConnIDLimit := 2, needSend := false }

/-- The state produced by `handleNewConnID 2 c1w 2 1 [7] [22]`. -/
def c1wS : ConnIDState :=
  { locals := [],
    remote := [⟨⟨[5], 0, true, true⟩, [20]⟩, ⟨⟨[6], 1, false, false⟩, [21]⟩,
               ⟨⟨[7], 2, false, false⟩, [22]⟩],
    nextLocalSeq := 1, retireRemotePriorTo := 1, peerActiveConnIDLimit := 2, needSend := true }

/-- The operations enqueued by `handleNewConnID 2 c1w 2 1 [7] [22]`. -/
def c1wOps : List TableOp :=
  [TableOp.retireResetToken [20], TableOp.addResetToken [22]]

/-- Witness state for the limit-check claim: one live remote entry; with
active limit 1, adding a second live entry trips the active-count check. -/
def c2w : ConnIDState :=
  { locals := [], remote := [⟨⟨[1], 0, false, false⟩, [40]⟩],
    nextLocalSeq := 1, retireRemotePriorTo := 0, peerActiveConnIDLimit := 2, needSend := false }

/-- The state produced by `handleNewConnID 1 c2w 1 0 [2] [41]`. -/
def c2wS : ConnIDState :=
  { locals := [],
    remote := [⟨⟨[1], 0, false, false⟩, [40]⟩, ⟨⟨[2], 1, false, false⟩, [41]⟩],
    nextLocalSeq := 1, retireRemotePriorTo := 0, peerActiveConnIDLimit := 2, needSend := false }

/-- Counterexample state for the duplicate-sequence claim: the peer uses a
zero-length connection ID, stored as the remote head with sequence 0. -/
def cexS4 : ConnIDState :=
  { locals := [], remote := [⟨⟨[], 0, false, false⟩, [50]⟩],
    nextLocalSeq := 1, retireRemotePriorTo := 0, peerActiveConnIDLimit := 2, needSend := false }

/-- Witness state for the duplicate-sequence claim: one remote entry with
sequence 0 and CID `[3]`. -/
def c4w : ConnIDState :=
  { locals := [], remote := [⟨⟨[3], 0, false, false⟩, [60]⟩],
    nextLocalSeq := 1, retireRemotePriorTo := 0, peerActiveConnIDLimit := 2, needSend := false }

/-- The count the `for i := range s.local` loop of `issueLocalIDs` subtracts
from `toIssue`: local IDs that are neither transient (`seq != -1`) nor
retired. -/
def nonTransientActive (ls : List ConnID) : Nat :=
  ls.countP (fun l => decide (l.seq ≠ -1) && !l.retired)

/-- The entries the issue loop appends: fresh CIDs from `gen` (modelling
`c.newConnID`) with consecutive sequence numbers from `start`, non-retired,
with `send.setUnsent()`. -/
def newLocalIDs (gen : Int → List Nat) (start : Int) (n : Nat) : List ConnID :=
  (List.range n).map fun (i : Nat) => ⟨gen (start + (i : Int)), start + (i : Int), false, true⟩

/-- The `for toIssue > 0` loop of `issueLocalIDs`: `n` iterations, each
allocating a CID for `nextLocalSeq`, appending it to `local` marked unsent,
incrementing `nextLocalSeq` and setting `needSend`. Also returns the list of
newly allocated CIDs (Go `newIDs`). -/
def issueLoop (gen : Int → List Nat) : Nat → ConnIDState → ConnIDState × List (List Nat)
  | 0, s => (s, [])
  | n + 1, s =>
    let cid := gen s.nextLocalSeq
    let s1 : ConnIDState :=
      { s with locals := s.locals ++ [⟨cid, s.nextLocalSeq, false, true⟩],
               nextLocalSeq := s.nextLocalSeq + 1, needSend := true }
    let res := issueLoop gen n s1
    (res.1, cid :: res.2)

/-- `issueLocalIDs(c)` from `conn_id.go`: `toIssue` is
`min(peerActiveConnIDLimit, maxPeerActiveConnIDLimit)` minus the non-transient
non-retired local count; the loop runs while `toIssue > 0`; afterwards
`addConnID` is enqueued for each new CID. `maxPeer` stands for the Go constant
`maxPeerActiveConnIDLimit`; `gen` models `c.newConnID` (test hook / random CID
generator), assumed total. -/
def issueLocalIDs (maxPeer : Int) (gen : Int → List Nat) (s : ConnIDState) :
    ConnIDState × List TableOp :=
  let toIssue : Int := min s.peerActiveConnIDLimit maxPeer - (nonTransientActive s.locals : Int)
  let res := issueLoop gen toIssue.toNat s
  (res.1, res.2.map TableOp.addConnID)

/-- `setPeerActiveConnIDLimit(c, lim)` from `conn_id.go`: store the peer's
transport parameter, then issue local IDs. -/
def setPeerActiveConnIDLimit (maxPeer : Int) (gen : Int → List Nat)
    (s : ConnIDState) (lim : Int) : ConnIDState × List TableOp :=
  issueLocalIDs maxPeer gen { s with peerActiveConnIDLimit := lim }

/-- The `for i := range s.local` loop of `handleRetireConnID`: remove the
first local entry whose sequence number is `seq` (the Go loop breaks after
the first match), enqueuing `retireConnID` for its CID. -/
def removeLocalSeq (seq : Int) : List ConnID → List ConnID × List TableOp
  | [] => ([], [])
  | l :: ls =>
    if l.seq = seq then (ls, [TableOp.retireConnID l.cid])
    else
      let res := removeLocalSeq seq ls
      (l :: res.1, res.2)

/-- `handleRetireConnID(c, seq)` from `conn_id.go`: PROTOCOL_VIOLATION when
`seq >= nextLocalSeq`; otherwise remove the matching local entry (unregistering
its CID) and call `issueLocalIDs` (whose error the Go code discards). -/
def handleRetireConnID (maxPeer : Int) (gen : Int → List Nat) (s : ConnIDState)
    (seq : Int) : ConnIDState × List TableOp × Option TransportError :=
  if s.nextLocalSeq ≤ seq then (s, [], some TransportError.protocolViolation)
  else
    let rem := removeLocalSeq seq s.locals
    let s1 : ConnIDState := { s with locals := rem.1 }
    let iss := issueLocalIDs maxPeer gen s1
    (iss.1, rem.2 ++ iss.2, none)

/-- Supported QUIC version (spec: supported-versions list contains
`0x00000001`). -/
def quicVersion1 : Nat := 1

/-- Minimum size of an Initial datagram (spec: 1200 bytes). -/
def paddedInitialDatagramSize : Nat := 1200

/-- Minimum valid packet size for the unknown-destination path (source:
`const minimumValidPacketSize = 21`). -/
def minimumValidPacketSize : Nat := 21

/-- Modelled from the spec: the long-header form bit of the first byte
(`headerFormLong`, RFC 9000 bit 0x80); the constant is not under src/. -/
def headerFormLong : Nat := 0x80

/-- Modelled from the spec: the fixed bit of the first byte (`fixedBit`,
RFC 9000 bit 0x40); the constant is not under src/. -/
def fixedBit : Nat := 0x40

/-- Modelled from the spec: `isLongHeader` tests the long-header bit of the
first byte; the function is not under src/. -/
def isLongHeader (b0 : Nat) : Bool :=
  decide (b0 &&& headerFormLong ≠ 0)

/-- Big-endian accumulation of a byte string into an unsigned integer
(network byte order, used for the 4-byte version field). -/
def beUint32 (l : List Nat) : Nat :=
  l.foldl (fun acc b => acc * 256 + b % 256) 0

/-- The fields `handleUnknownDestinationDatagram` reads from a parsed generic
long-header packet (Go struct `genericLongPacket`). -/
structure GenericLongPacket where
  version : Nat
  dstConnID : List Nat
  srcConnID : List Nat
deriving DecidableEq, Repr

/-- Modelled from the spec: `parseGenericLongHeaderPacket` is not under src/.
Per spec §6 and RFC 9000 §17.2 it reads, from a long-header packet, the flags
byte, the 4-byte version, and the length-prefixed destination and source
connection IDs, failing on truncated input or a short-header first byte. -/
def parseGenericLongHeaderPacket (b : List Nat) : Option GenericLongPacket :=
  match b with
  | [] => none
  | b0 :: r =>
    if ¬(4 ≤ r.length ∧ isLongHeader b0 = true) then none
    else
      let version := beUint32 (r.take 4)
      match r.drop 4 with
      | [] => none
      | dl :: r2 =>
        let dlen := dl % 256
        if r2.length < dlen then none
        else
          let dcid := r2.take dlen
          match r2.drop dlen with
          | [] => none
          | sl :: r4 =>
            let slen := sl % 256
            if r4.length < slen then none
            else some ⟨version, dcid, r4.take slen⟩

/-- The last `n` bytes of a byte string (the tail the reset-token check and
the stateless-reset copy read). -/
def lastN (n : Nat) (l : List Nat) : List Nat :=
  l.drop (l.length - n)

/-- The Go fixups of the first byte of a stateless reset:
`b[0] &^= headerFormLong; b[0] |= fixedBit` (on a byte value). -/
def clearLongSetFixed (x : Nat) : Nat :=
  ((x % 256) &&& 0x7f) ||| fixedBit

/-- Apply the first-byte fixups to the head of the random prefix. -/
def adjustFirst : List Nat → List Nat
  | [] => []
  | x :: xs => clearLongSetFixed x :: xs

/-- `maybeSendStatelessReset(b, addr)` from the listener: nothing when no
reset key is configured or the input is shorter than
`1 + connIDLen + 1 + 1 + 16`; otherwise a reset of `min(len(b)-1, 42)` bytes:
random bytes (via `randBytes`, modelling `rand.Read`, which fills exactly the
requested length), first byte fixed up, and the token for `b[1:1+connIDLen]`
(via `tokenForConnID`, modelling the keyed generator, which returns 16-byte
tokens) as the last 16 bytes. -/
def maybeSendStatelessReset (canReset : Bool) (tokenForConnID : List Nat → List Nat)
    (randBytes : Nat → List Nat) (b : List Nat) : Option (List Nat) :=
  if !canReset then none
  else if b.length < 1 + connIDLen + 1 + 1 + 16 then none
  else
    let cid := (b.drop 1).take connIDLen
    let token := tokenForConnID cid
    let size := min (b.length - 1) 42
    let rb := randBytes (size - statelessResetTokenLen)
    some (adjustFirst rb ++ token)

/-- What the unknown-destination path does with a datagram: drop it, deliver
a synthesized stateless-reset event to the conn owning the matched token,
send a stateless reset, send a Version Negotiation packet (arguments in the
order `appendVersionNegotiation` receives them: destination CID = the
packet's source CID, source CID = the packet's destination CID, then the
supported versions), or continue into the version-1 Initial handling
(address validation and new-connection admission, outside the modelled
operations). -/
inductive UnknownDatagramAction
  | drop
  | statelessResetEvent (token : List Nat)
  | sendStatelessReset (pkt : List Nat)
  | sendVersionNegotiation (dstConnID srcConnID : List Nat) (versions : List Nat)
  | continueV1 (p : GenericLongPacket)
deriving DecidableEq, Repr

/-- `handleUnknownDestinationDatagram(m)` from the listener, with the
listener's registered reset tokens, reset capability, token generator and
randomness as parameters. -/
def handleUnknownDestinationDatagram (resetTokens : List (List Nat))
    (canReset : Bool) (tokenForConnID : List Nat → List Nat)
    (randBytes : Nat → List Nat) (b : List Nat) : UnknownDatagramAction :=
  if b.length < minimumValidPacketSize then UnknownDatagramAction.drop
  else
    let token := lastN statelessResetTokenLen b
    if token ∈ resetTokens then UnknownDatagramAction.statelessResetEvent token
    else if ¬(isLongHeader (b.headD 0) = true) then
      match maybeSendStatelessReset canReset tokenForConnID randBytes b with
      | some pkt => UnknownDatagramAction.sendStatelessReset pkt
      | none => UnknownDatagramAction.drop
    else
      match parseGenericLongHeaderPacket b with
      | none => UnknownDatagramAction.drop
      | some p =>
        if b.length < paddedInitialDatagramSize then UnknownDatagramAction.drop
        else if p.version = quicVersion1 then UnknownDatagramAction.continueV1 p
        else if p.version = 0 then UnknownDatagramAction.drop
        else UnknownDatagramAction.sendVersionNegotiation p.srcConnID p.dstConnID [quicVersion1]

/-- The listener lifecycle state the close/drain claims are about: the live
conn set (`l.conns`, conns named by numbers), the `closing` flag, and whether
`l.udpConn.Close()` has been called. All three are guarded by `connsMu` in
the source, so the operations are modelled as serialized transitions. -/
structure ListenerState where
  conns : List Nat
  closing : Bool
  socketClosed : Bool
deriving DecidableEq, Repr

/-- A freshly constructed listener: no conns, not closing, socket open. -/
def initListenerState : ListenerState :=
  { conns := [], closing := false, socketClosed := false }

/-- `Listener.newConn` (used by both server admission and Dial): fails when
`closing` is set, otherwise inserts the conn. The `Bool` is success. -/
def listenerNewConn (s : ListenerState) (c : Nat) : ListenerState × Bool :=
  if s.closing then (s, false)
  else ({ s with conns := c :: s.conns }, true)

/-- The state change of `Listener.Close`: on the first call set `closing`
and, when no conns remain, close the socket. -/
def listenerClose (s : ListenerState) : ListenerState :=
  if s.closing then s
  else { s with closing := true, socketClosed := s.socketClosed || s.conns.isEmpty }

/-- `Listener.connDrained`: remove the conn; when closing and it was the
last, close the socket. -/
def listenerConnDrained (s : ListenerState) (c : Nat) : ListenerState :=
  let conns := s.conns.filter (fun x => x ≠ c)
  { s with conns := conns,
           socketClosed := s.socketClosed || (s.closing && conns.isEmpty) }

/-- The listener lifecycle events. -/
inductive ListenerEvent
  | newConn (c : Nat)
  | close
  | connDrained (c : Nat)
deriving DecidableEq, Repr

/-- One serialized lifecycle transition. -/
def listenerStep (s : ListenerState) : ListenerEvent → ListenerState
  | ListenerEvent.newConn c => (listenerNewConn s c).1
  | ListenerEvent.close => listenerClose s
  | ListenerEvent.connDrained c => listenerConnDrained s c

/-- The listener states reachable from construction. -/
inductive ListenerReachable : ListenerState → Prop
  | init : ListenerReachable initListenerState
  | step (s : ListenerState) (e : ListenerEvent) :
      ListenerReachable s → ListenerReachable (listenerStep s e)

/-- A deterministic CID generator for concrete runs (stands in for the
`newConnID` test hook). -/
def genW : Int → List Nat := fun i => [i.toNat]

/-- A CID generator returning empty CIDs, for runs that issue nothing. -/
def genZero : Int → List Nat := fun _ => []

/-- Counterexample state for the local-limit claim: one non-retired,
non-transient local CID already present. -/
def cexS3 : ConnIDState :=
  { locals := [⟨[1], 0, false, false⟩], remote := [], nextLocalSeq := 1,
    retireRemotePriorTo := 0, peerActiveConnIDLimit := 2, needSend := false }

/-- Witness state for the local-limit claim. -/
def c3w : ConnIDState :=
  { locals := [⟨[1], 0, false, false⟩], remote := [], nextLocalSeq := 1,
    retireRemotePriorTo := 0, peerActiveConnIDLimit := 0, needSend := false }

/-- Witness state for the retire-local claim: a transient entry and two
issued entries with sequence numbers 0 and 1. -/
def c7w : ConnIDState :=
  { locals := [⟨[1], -1, false, false⟩, ⟨[2], 0, false, false⟩, ⟨[3], 1, false, false⟩],
    remote := [], nextLocalSeq := 2, retireRemotePriorTo := 0,
    peerActiveConnIDLimit := 2, needSend := false }

/-- Counterexample datagram for the version-negotiation claim: a well-formed
generic long-header packet (version 2, empty connection IDs) of only 30
bytes — below the 1200-byte padded-Initial minimum. -/
def cexB5 : List Nat := [0x80, 0, 0, 0, 2, 0, 0] ++ List.replicate 23 0

/-- Witness datagram for the version-negotiation claim: version 2, DCID
`[7]`, SCID `[9]`, padded to 1200 bytes. -/
def wB5 : List Nat := [0x80, 0, 0, 0, 2, 1, 7, 1, 9] ++ List.replicate 1191 0

/-- Witness datagram for the stateless-reset claim: a 30-byte short-header
datagram. -/
def wB6 : List Nat := 0x40 :: List.replicate 29 5

/-- Witness listener state: one conn admitted, `Close` called, then the conn
drained. -/
def c8w : ListenerState :=
  listenerStep (listenerStep (listenerStep initListenerState
    (ListenerEvent.newConn 0)) ListenerEvent.close) (ListenerEvent.connDrained 0)

/- Basic facts about `retireRemoteEntry`. -/

@[simp]
theorem retireRemoteEntry_seq (r : RemoteConnID) : (retireRemoteEntry r).seq = r.seq := rfl

@[simp]
theorem retireRemoteEntry_cid (r : RemoteConnID) : (retireRemoteEntry r).cid = r.cid := rfl

@[simp]
theorem retireRemoteEntry_resetToken (r : RemoteConnID) :
    (retireRemoteEntry r).resetToken = r.resetToken := rfl

@[simp]
theorem retireRemoteEntry_retired (r : RemoteConnID) :
    (retireRemoteEntry r).retired = true := rfl

/-- The pass leaves every entry's sequence number and CID unchanged
(retirement only flips flags), including the entries left unprocessed by an
early error return. -/
theorem processRemote_map_seq_cid (rrpt seq : Int) (cid : List Nat)
    (l : List RemoteConnID) :
    (processRemote rrpt seq cid l).rest.map (fun r => (r.seq, r.cid)) =
      l.map (fun r => (r.seq, r.cid)) := by
  induction l with
  | nil => simp [processRemote]
  | cons r rs ih =>
    simp only [processRemote]
    by_cases hd : (!r.retired && decide (0 ≤ r.seq) && decide (r.seq < rrpt)) = true
    · simp only [if_pos hd, retireRemoteEntry_seq, retireRemoteEntry_cid]
      by_cases hm : r.seq = seq ∧ ¬r.cid = cid
      · simp only [if_pos hm, List.map_cons, retireRemoteEntry_seq, retireRemoteEntry_cid]
      · simp only [if_neg hm, List.map_cons, retireRemoteEntry_seq, retireRemoteEntry_cid, ih]
    · simp only [if_neg hd]
      by_cases hm : r.seq = seq ∧ ¬r.cid = cid
      · simp only [if_pos hm, List.map_cons]
      · simp only [if_neg hm, List.map_cons, ih]

/-- The pass errors exactly when some entry carries the incoming sequence
number with a different CID. -/
theorem processRemote_err_iff (rrpt seq : Int) (cid : List Nat)
    (l : List RemoteConnID) :
    (processRemote rrpt seq cid l).err = true ↔
      ∃ r ∈ l, r.seq = seq ∧ r.cid ≠ cid := by
  induction l with
  | nil => simp [processRemote]
  | cons r rs ih =>
    have step : (processRemote rrpt seq cid (r :: rs)).err = true ↔
        ((r.seq = seq ∧ r.cid ≠ cid) ∨ (processRemote rrpt seq cid rs).err = true) := by
      simp only [processRemote]
      by_cases hd : (!r.retired && decide (0 ≤ r.seq) && decide (r.seq < rrpt)) = true
      · simp only [if_pos hd]
        by_cases hm : r.seq = seq ∧ ¬r.cid = cid
        · simp [if_pos hm, hm]
        · simp [if_neg hm, hm]
      · simp only [if_neg hd]
        by_cases hm : r.seq = seq ∧ ¬r.cid = cid
        · simp [if_pos hm, hm]
        · simp [if_neg hm, hm]
    rw [step, ih]
    constructor
    · rintro (hx | ⟨r', hr', hx⟩)
      · exact ⟨r, List.mem_cons_self r rs, hx⟩
      · exact ⟨r', List.mem_cons_of_mem r hr', hx⟩
    · rintro ⟨r', hr', hx⟩
      rcases List.mem_cons.mp hr' with rfl | hr'
      · exact Or.inl hx
      · exact Or.inr ⟨r', hr', hx⟩

/-- Head step of the pass when the head entry does not trigger the
mismatch error: the updated head is kept and the tail result is appended. -/
theorem seq_retireStep (b : Bool) (r : RemoteConnID) :
    (if b = true then retireRemoteEntry r else r).seq = r.seq := by
  cases b <;> rfl

theorem cid_retireStep (b : Bool) (r : RemoteConnID) :
    (if b = true then retireRemoteEntry r else r).cid = r.cid := by
  cases b <;> rfl

theorem processRemote_cons_no_err (rrpt seq : Int) (cid : List Nat)
    (r : RemoteConnID) (rs : List RemoteConnID)
    (hnm : ¬(r.seq = seq ∧ ¬r.cid = cid)) :
    processRemote rrpt seq cid (r :: rs) =
      ⟨(if (!r.retired && decide (0 ≤ r.seq) && decide (r.seq < rrpt)) = true
          then retireRemoteEntry r else r) :: (processRemote rrpt seq cid rs).rest,
        (if (!r.retired && decide (0 ≤ r.seq) && decide (r.seq < rrpt)) = true
          then [TableOp.retireResetToken r.resetToken] else []) ++
          (processRemote rrpt seq cid rs).ops,
        decide (r.seq = seq) || (processRemote rrpt seq cid rs).haveSeq,
        (if (if (!r.retired && decide (0 ≤ r.seq) && decide (r.seq < rrpt)) = true
            then retireRemoteEntry r else r).retired = true then 0 else 1) +
          (processRemote rrpt seq cid rs).active,
        ((!r.retired && decide (0 ≤ r.seq) && decide (r.seq < rrpt)) ||
          (processRemote rrpt seq cid rs).needSend),
        (processRemote rrpt seq cid rs).err⟩ := by
  simp only [processRemote, seq_retireStep, cid_retireStep, if_neg hnm]

/-- A head entry whose sequence number matches with a different CID would
make the pass error; under a no-error hypothesis it is excluded. -/
theorem processRemote_no_err_head (rrpt seq : Int) (cid : List Nat)
    (r : RemoteConnID) (rs : List RemoteConnID)
    (herr : (processRemote rrpt seq cid (r :: rs)).err = false) :
    ¬(r.seq = seq ∧ ¬r.cid = cid) := by
  intro hm
  have h : (processRemote rrpt seq cid (r :: rs)).err = true :=
    (processRemote_err_iff rrpt seq cid (r :: rs)).mpr
      ⟨r, List.mem_cons_self r rs, hm.1, hm.2⟩
  rw [herr] at h
  exact Bool.false_ne_true h

/-- When the pass completes without error, the `have` flag is set exactly
when some entry carries the incoming sequence number. -/
theorem processRemote_haveSeq_iff (rrpt seq : Int) (cid : List Nat)
    (l : List RemoteConnID) (herr : (processRemote rrpt seq cid l).err = false) :
    (processRemote rrpt seq cid l).haveSeq = true ↔ ∃ r ∈ l, r.seq = seq := by
  induction l with
  | nil => simp [processRemote]
  | cons r rs ih =>
    have hnm := processRemote_no_err_head rrpt seq cid r rs herr
    rw [processRemote_cons_no_err rrpt seq cid r rs hnm] at herr ⊢
    have herr' : (processRemote rrpt seq cid rs).err = false := herr
    simp only [Bool.or_eq_true, decide_eq_true_eq, ih herr', List.mem_cons]
    constructor
    · rintro (hx | ⟨r', hr', hx⟩)
      · exact ⟨r, Or.inl rfl, hx⟩
      · exact ⟨r', Or.inr hr', hx⟩
    · rintro ⟨r', hr', hx⟩
      rcases hr' with rfl | hr'
      · exact Or.inl hx
      · exact Or.inr ⟨r', hr', hx⟩

/-- When the pass completes without error, its `active` counter equals the
number of non-retired entries in the updated list. -/
theorem processRemote_active_count (rrpt seq : Int) (cid : List Nat)
    (l : List RemoteConnID) (herr : (processRemote rrpt seq cid l).err = false) :
    (processRemote rrpt seq cid l).active =
      (processRemote rrpt seq cid l).rest.countP (fun r => !r.retired) := by
  induction l with
  | nil => simp [processRemote]
  | cons r rs ih =>
    have hnm := processRemote_no_err_head rrpt seq cid r rs herr
    rw [processRemote_cons_no_err rrpt seq cid r rs hnm] at herr ⊢
    have herr' : (processRemote rrpt seq cid rs).err = false := herr
    simp only [List.countP_cons]
    rw [ih herr']
    cases hr : (if (!r.retired && decide (0 ≤ r.seq) && decide (r.seq < rrpt)) = true
        then retireRemoteEntry r else r).retired <;> simp [hr, Nat.add_comm]

/-- When the pass completes without error, every entry of the result that is
still non-retired has a sequence number outside `[0, rrpt)`. -/
theorem processRemote_retired_complete (rrpt seq : Int) (cid : List Nat)
    (l : List RemoteConnID) (herr : (processRemote rrpt seq cid l).err = false) :
    ∀ r ∈ (processRemote rrpt seq cid l).rest,
      r.retired = false → ¬(0 ≤ r.seq ∧ r.seq < rrpt) := by
  induction l with
  | nil => simp [processRemote]
  | cons r rs ih =>
    have hnm := processRemote_no_err_head rrpt seq cid r rs herr
    rw [processRemote_cons_no_err rrpt seq cid r rs hnm] at herr ⊢
    have herr' : (processRemote rrpt seq cid rs).err = false := herr
    intro x hx hret
    simp only [List.mem_cons] at hx
    rcases hx with rfl | hx
    · rw [seq_retireStep]
      by_cases hd : (!r.retired && decide (0 ≤ r.seq) && decide (r.seq < rrpt)) = true
      · rw [if_pos hd] at hret
        simp [retireRemoteEntry] at hret
      · rw [if_neg hd] at hret
        simp only [Bool.and_eq_true, Bool.not_eq_true', decide_eq_true_eq] at hd
        rintro ⟨h0, h1⟩
        exact hd ⟨⟨hret, h0⟩, h1⟩
    · exact ih herr' x hx hret

/-- When the pass completes without error, the reset token of every entry it
retires (non-retired, `0 ≤ seq < rrpt`) is enqueued for removal from the
table. -/
theorem processRemote_ops_retire (rrpt seq : Int) (cid : List Nat)
    (l : List RemoteConnID) (herr : (processRemote rrpt seq cid l).err = false) :
    ∀ r ∈ l, r.retired = false → 0 ≤ r.seq → r.seq < rrpt →
      TableOp.retireResetToken r.resetToken ∈ (processRemote rrpt seq cid l).ops := by
  induction l with
  | nil => simp [processRemote]
  | cons r rs ih =>
    have hnm := processRemote_no_err_head rrpt seq cid r rs herr
    rw [processRemote_cons_no_err rrpt seq cid r rs hnm] at herr ⊢
    have herr' : (processRemote rrpt seq cid rs).err = false := herr
    intro x hx hret h0 h1
    simp only [List.mem_cons] at hx
    rcases hx with rfl | hx
    · simp [hret, h0, h1]
    · simp only [List.mem_append]
      exact Or.inr (ih herr' x hx hret h0 h1)

/-- The operations emitted by `processRemote (r :: rs)`: the head's
possible retirement followed by, unless the head aborted the pass, the tail
operations. -/
theorem processRemote_cons_ops (rrpt seq : Int) (cid : List Nat)
    (r : RemoteConnID) (rs : List RemoteConnID) :
    (processRemote rrpt seq cid (r :: rs)).ops =
      (if (!r.retired && decide (0 ≤ r.seq) && decide (r.seq < rrpt)) = true
        then [TableOp.retireResetToken r.resetToken] else []) ++
      (if r.seq = seq ∧ ¬r.cid = cid then []
        else (processRemote rrpt seq cid rs).ops) := by
  by_cases hm : r.seq = seq ∧ ¬r.cid = cid
  · simp only [processRemote, seq_retireStep, cid_retireStep, if_pos hm, List.append_nil]
  · rw [processRemote_cons_no_err rrpt seq cid r rs hm]
    simp only [if_neg hm]

/-- The pass never enqueues a token registration: its operations are all
`retireResetToken`. -/
theorem processRemote_ops_no_add (rrpt seq : Int) (cid : List Nat)
    (l : List RemoteConnID) (t : List Nat) :
    TableOp.addResetToken t ∉ (processRemote rrpt seq cid l).ops := by
  induction l with
  | nil => simp [processRemote]
  | cons r rs ih =>
    rw [processRemote_cons_ops]
    simp only [List.mem_append]
    rintro (hx | hx)
    · revert hx
      by_cases hd : (!r.retired && decide (0 ≤ r.seq) && decide (r.seq < rrpt)) = true
      · simp [if_pos hd]
      · simp [if_neg hd]
    · revert hx
      by_cases hm : r.seq = seq ∧ ¬r.cid = cid
      · simp [if_pos hm]
      · simp only [if_neg hm]
        exact ih

/-- Claim C10: `handleNewConnID` reads `remote[0]` unconditionally, so its
out-of-bounds branch (modelled as `none`) is taken exactly when `remote` is
empty; for every non-empty `remote` the operation has a defined result. -/
theorem handleNewConnID_defined_iff_remote_nonempty (activeLimit : Nat)
    (s : ConnIDState) (seq retire : Int) (cid resetToken : List Nat) :
    handleNewConnID activeLimit s seq retire cid resetToken = none ↔ s.remote = [] := by
  cases h : s.remote <;> simp [handleNewConnID, h]


/-- `finishNewConnID` returns the given state and operations unchanged, and
an error determined by the two limit checks. -/
theorem finishNewConnID_eq (activeLimit : Nat) (s2 : ConnIDState)
    (ops : List TableOp) (active : Nat) :
    finishNewConnID activeLimit s2 ops active =
      (s2, ops,
        if active > activeLimit then some TransportError.connectionIDLimit
        else if s2.remote.length > 4 * activeLimit then
          some TransportError.connectionIDLimit
        else none) := by
  unfold finishNewConnID
  split_ifs <;> rfl

/-- The limit-check error is never a protocol violation. -/
theorem finishErr_ne_pv (activeLimit : Nat) (n : Nat) (active : Nat) :
    (if active > activeLimit then some TransportError.connectionIDLimit
      else if n > 4 * activeLimit then some TransportError.connectionIDLimit
      else none) ≠ some TransportError.protocolViolation := by
  split_ifs <;> simp

/-- Claim C1 (amended): when `remote` is non-empty with a non-empty head CID,
`handleNewConnID` first sets `retireRemotePriorTo` to
`max retireRemotePriorTo retire` (this survives even an error return), and
whenever it does not return PROTOCOL_VIOLATION, after the call every
non-retired remote entry has a sequence number outside
`[0, max retireRemotePriorTo retire)` — i.e. every non-retired entry with
nonnegative sequence number below the updated value was marked retired — and
the reset token of every such previously non-retired entry was enqueued for
removal from the table. -/
theorem handleNewConnID_retirement_pass (activeLimit : Nat) (s : ConnIDState)
    (seq retire : Int) (cid resetToken : List Nat) (r0 : RemoteConnID)
    (rest : List RemoteConnID) (s' : ConnIDState) (ops : List TableOp)
    (e : Option TransportError)
    (hrem : s.remote = r0 :: rest) (h0 : r0.cid ≠ [])
    (h : handleNewConnID activeLimit s seq retire cid resetToken = some (s', ops, e)) :
    s'.retireRemotePriorTo = max s.retireRemotePriorTo retire ∧
    (e ≠ some TransportError.protocolViolation →
      (∀ r ∈ s'.remote, r.retired = false →
        ¬(0 ≤ r.seq ∧ r.seq < max s.retireRemotePriorTo retire)) ∧
      (∀ r ∈ s.remote, r.retired = false → 0 ≤ r.seq →
        r.seq < max s.retireRemotePriorTo retire →
        TableOp.retireResetToken r.resetToken ∈ ops)) := by
  simp only [handleNewConnID, hrem, finishNewConnID_eq] at h
  rw [if_neg h0, Option.some.injEq] at h
  split at h
  · rename_i herr
    simp only [Prod.mk.injEq] at h
    obtain ⟨hs, hops, he⟩ := h
    subst hs
    subst he
    refine ⟨rfl, fun hne => absurd rfl hne⟩
  · rename_i herr
    have herrf : (processRemote (max s.retireRemotePriorTo retire) seq cid
        (r0 :: rest)).err = false := by
      simpa using herr
    split at h
    · simp only [Prod.mk.injEq] at h
      obtain ⟨hs, hops, he⟩ := h
      subst hs
      subst hops
      subst he
      refine ⟨rfl, fun _ => ⟨?_, ?_⟩⟩
      · exact processRemote_retired_complete _ _ _ _ herrf
      · intro r hr hret h0s h1s
        rw [hrem] at hr
        exact processRemote_ops_retire _ _ _ _ herrf r hr hret h0s h1s
    · split at h
      · rename_i hsl
        simp only [Prod.mk.injEq] at h
        obtain ⟨hs, hops, he⟩ := h
        subst hs
        subst hops
        subst he
        refine ⟨rfl, fun _ => ⟨?_, ?_⟩⟩
        · intro r hr hret
          simp only [List.mem_append, List.mem_singleton] at hr
          rcases hr with hr | rfl
          · exact processRemote_retired_complete _ _ _ _ herrf r hr hret
          · simp at hret
        · intro r hr hret h0s h1s
          rw [hrem] at hr
          exact processRemote_ops_retire _ _ _ _ herrf r hr hret h0s h1s
      · rename_i hsl
        simp only [Prod.mk.injEq] at h
        obtain ⟨hs, hops, he⟩ := h
        subst hs
        subst hops
        subst he
        refine ⟨rfl, fun _ => ⟨?_, ?_⟩⟩
        · intro r hr hret
          simp only [List.mem_append, List.mem_singleton] at hr
          rcases hr with hr | rfl
          · exact processRemote_retired_complete _ _ _ _ herrf r hr hret
          · rintro ⟨hge, hlt⟩
            exact hsl hlt
        · intro r hr hret h0s h1s
          rw [hrem] at hr
          exact List.mem_append_left _
            (processRemote_ops_retire _ _ _ _ herrf r hr hret h0s h1s)


/-- The limit-check result equals CONNECTION_ID_LIMIT exactly when one of the
two limits is exceeded. -/
theorem finishErr_eq_limit_iff (activeLimit n active : Nat) :
    ((if active > activeLimit then some TransportError.connectionIDLimit
      else if n > 4 * activeLimit then some TransportError.connectionIDLimit
      else none) = some TransportError.connectionIDLimit) ↔
      (active > activeLimit ∨ n > 4 * activeLimit) := by
  split_ifs with hA hB
  · simp [hA]
  · simp [hB]
  · simp [hA, hB]

/-- Claim C2: whenever `handleNewConnID` does not return PROTOCOL_VIOLATION,
it returns CONNECTION_ID_LIMIT exactly when, after the retirement pass and
the possible append, the number of non-retired remote entries exceeds the
active limit or the total number of remote entries exceeds four times the
active limit; otherwise no limit error is returned. -/
theorem handleNewConnID_limit_check (activeLimit : Nat) (s : ConnIDState)
    (seq retire : Int) (cid resetToken : List Nat) (s' : ConnIDState)
    (ops : List TableOp) (e : Option TransportError)
    (h : handleNewConnID activeLimit s seq retire cid resetToken = some (s', ops, e))
    (hne : e ≠ some TransportError.protocolViolation) :
    e = some TransportError.connectionIDLimit ↔
      s'.remote.countP (fun r => !r.retired) > activeLimit ∨
        s'.remote.length > 4 * activeLimit := by
  rcases hrem : s.remote with _ | ⟨r0, rest⟩
  · simp [handleNewConnID, hrem] at h
  by_cases h0 : r0.cid = []
  · simp only [handleNewConnID, hrem] at h
    rw [if_pos h0, Option.some.injEq] at h
    simp only [Prod.mk.injEq] at h
    exact absurd h.2.2.symm hne
  simp only [handleNewConnID, hrem, finishNewConnID_eq] at h
  rw [if_neg h0, Option.some.injEq] at h
  split at h
  · simp only [Prod.mk.injEq] at h
    exact absurd h.2.2.symm hne
  · rename_i herr
    have herrf : (processRemote (max s.retireRemotePriorTo retire) seq cid
        (r0 :: rest)).err = false := by
      simpa using herr
    have hcnt := processRemote_active_count (max s.retireRemotePriorTo retire)
      seq cid (r0 :: rest) herrf
    split at h
    · simp only [Prod.mk.injEq] at h
      obtain ⟨hs, hops, he⟩ := h
      subst hs
      subst he
      rw [finishErr_eq_limit_iff, hcnt]
    · split at h <;>
      · simp only [Prod.mk.injEq] at h
        obtain ⟨hs, hops, he⟩ := h
        subst hs
        subst he
        rw [finishErr_eq_limit_iff, hcnt]
        simp only [List.countP_append, List.countP_cons, List.countP_nil,
          List.length_append, List.length_cons, List.length_nil]
        simp

/-- Claim C4 (amended): when the remote head CID is non-empty,
`handleNewConnID` returns PROTOCOL_VIOLATION exactly when some stored remote
entry carries the incoming sequence number with a different CID; and when the
sequence number is already present and every such entry carries the identical
CID, the call appends no new remote entry and registers no reset token. -/
theorem handleNewConnID_duplicate_seq (activeLimit : Nat) (s : ConnIDState)
    (seq retire : Int) (cid resetToken : List Nat) (r0 : RemoteConnID)
    (rest : List RemoteConnID) (s' : ConnIDState) (ops : List TableOp)
    (e : Option TransportError)
    (hrem : s.remote = r0 :: rest) (h0 : r0.cid ≠ [])
    (h : handleNewConnID activeLimit s seq retire cid resetToken = some (s', ops, e)) :
    (e = some TransportError.protocolViolation ↔
      ∃ r ∈ s.remote, r.seq = seq ∧ r.cid ≠ cid) ∧
    ((∃ r ∈ s.remote, r.seq = seq) → (∀ r ∈ s.remote, r.seq = seq → r.cid = cid) →
      s'.remote.length = s.remote.length ∧ ∀ t, TableOp.addResetToken t ∉ ops) := by
  simp only [handleNewConnID, hrem, finishNewConnID_eq] at h
  rw [if_neg h0, Option.some.injEq] at h
  have hlen := congrArg List.length
    (processRemote_map_seq_cid (max s.retireRemotePriorTo retire) seq cid (r0 :: rest))
  simp only [List.length_map] at hlen
  split at h
  · rename_i herr
    simp only [Prod.mk.injEq] at h
    obtain ⟨hs, hops, he⟩ := h
    subst hs
    subst hops
    subst he
    constructor
    · rw [hrem]
      exact ⟨fun _ => (processRemote_err_iff _ _ _ _).mp herr, fun _ => rfl⟩
    · intro hex hall
      exfalso
      obtain ⟨r, hr, hseq, hcid⟩ := (processRemote_err_iff _ _ _ _).mp herr
      rw [← hrem] at hr
      exact hcid (hall r hr hseq)
  · rename_i herr
    have herrf : (processRemote (max s.retireRemotePriorTo retire) seq cid
        (r0 :: rest)).err = false := by
      simpa using herr
    have hnopv : ¬∃ r ∈ s.remote, r.seq = seq ∧ r.cid ≠ cid := by
      rw [hrem]
      intro hx
      have h1 := (processRemote_err_iff (max s.retireRemotePriorTo retire)
        seq cid (r0 :: rest)).mpr hx
      rw [h1] at herrf
      exact absurd herrf (by simp)
    have hhaveT : (∃ r ∈ s.remote, r.seq = seq) →
        (processRemote (max s.retireRemotePriorTo retire) seq cid
          (r0 :: rest)).haveSeq = true := by
      intro hex
      rw [hrem] at hex
      exact (processRemote_haveSeq_iff _ _ _ _ herrf).mpr hex
    split at h
    · simp only [Prod.mk.injEq] at h
      obtain ⟨hs, hops, he⟩ := h
      subst hs
      subst hops
      subst he
      refine ⟨⟨fun hpv => absurd hpv (finishErr_ne_pv _ _ _),
        fun hx => absurd hx hnopv⟩, ?_⟩
      intro hex hall
      refine ⟨?_, fun t => processRemote_ops_no_add _ _ _ _ t⟩
      rw [hrem]
      exact hlen
    · rename_i hhave
      split at h <;>
      · simp only [Prod.mk.injEq] at h
        obtain ⟨hs, hops, he⟩ := h
        subst hs
        subst hops
        subst he
        refine ⟨⟨fun hpv => absurd hpv (finishErr_ne_pv _ _ _),
          fun hx => absurd hx hnopv⟩, ?_⟩
        intro hex hall
        exact absurd (hhaveT hex) hhave


/-- Claim C9: `handleNewConnID` is not atomic on error. In scenario A it
returns PROTOCOL_VIOLATION (duplicate sequence number with mismatched CID)
after having raised `retireRemotePriorTo`, marked an entry retired and
enqueued its token removal; in scenario B it returns CONNECTION_ID_LIMIT
after additionally appending the new remote CID and registering its token. -/
theorem handleNewConnID_not_atomic_on_error :
    (∃ s' ops, handleNewConnID 2 c9StateA 1 1 [9] [12] =
        some (s', ops, some TransportError.protocolViolation) ∧
      s'.retireRemotePriorTo = 1 ∧ (∃ r ∈ s'.remote, r.retired = true) ∧
      TableOp.retireResetToken [10] ∈ ops) ∧
    (∃ s' ops, handleNewConnID 2 c9StateB 3 1 [4] [13] =
        some (s', ops, some TransportError.connectionIDLimit) ∧
      s'.retireRemotePriorTo = 1 ∧ (∃ r ∈ s'.remote, r.retired = true) ∧
      TableOp.retireResetToken [10] ∈ ops ∧
      (∃ r ∈ s'.remote, r.seq = 3 ∧ r.cid = [4] ∧ r.resetToken = [13]) ∧
      TableOp.addResetToken [13] ∈ ops) := by
  refine ⟨⟨_, _, rfl, ?_, ?_, ?_⟩, ⟨_, _, rfl, ?_, ?_, ?_, ?_, ?_⟩⟩ <;> decide

/-- Claim C1, counterexample: in a state whose remote head has the non-empty
CID `[1]` but the transient sequence number `-1`, a NEW_CONNECTION_ID with
`retire_prior_to = 1` succeeds, raises `retireRemotePriorTo` to 1, yet leaves
the entry with sequence `-1 < 1` non-retired and its token unretired: the
pass skips entries with negative sequence numbers. -/
theorem handleNewConnID_retirement_pass_cex :
    (∃ r0 rest, cexS1.remote = r0 :: rest ∧ r0.cid ≠ []) ∧
    ∃ s' ops, handleNewConnID 2 cexS1 5 1 [2] [31] = some (s', ops, none) ∧
      s'.retireRemotePriorTo = max cexS1.retireRemotePriorTo 1 ∧
      ∃ r ∈ s'.remote, r.retired = false ∧ r.seq < s'.retireRemotePriorTo ∧
        TableOp.retireResetToken r.resetToken ∉ ops := by
  refine ⟨⟨_, _, rfl, by decide⟩, _, _, rfl, ?_, ?_⟩ <;> decide

/-- Claim C1, witness: applying the amended retirement-pass theorem at a
concrete state with two live remote entries and `retire_prior_to = 1`. -/
theorem handleNewConnID_retirement_pass_witness :
    (c1w.remote = ⟨⟨[5], 0, false, false⟩, [20]⟩ :: [⟨⟨[6], 1, false, false⟩, [21]⟩] ∧
      (⟨⟨[5], 0, false, false⟩, [20]⟩ : RemoteConnID).cid ≠ [] ∧
      handleNewConnID 2 c1w 2 1 [7] [22] = some (c1wS, c1wOps, none)) ∧
    (c1wS.retireRemotePriorTo = max c1w.retireRemotePriorTo 1 ∧
      ((none : Option TransportError) ≠ some TransportError.protocolViolation →
        (∀ r ∈ c1wS.remote, r.retired = false →
          ¬(0 ≤ r.seq ∧ r.seq < max c1w.retireRemotePriorTo 1)) ∧
        (∀ r ∈ c1w.remote, r.retired = false → 0 ≤ r.seq →
          r.seq < max c1w.retireRemotePriorTo 1 →
          TableOp.retireResetToken r.resetToken ∈ c1wOps))) :=
  ⟨⟨rfl, by decide, by decide⟩,
    handleNewConnID_retirement_pass 2 c1w 2 1 [7] [22] _ _ c1wS c1wOps none
      rfl (by decide) (by decide)⟩

/-- Claim C2, witness: applying the limit-check theorem at a concrete state
where, with active limit 1, the appended CID makes two live entries and the
call returns CONNECTION_ID_LIMIT. -/
theorem handleNewConnID_limit_check_witness :
    (handleNewConnID 1 c2w 1 0 [2] [41] =
        some (c2wS, [TableOp.addResetToken [41]], some TransportError.connectionIDLimit) ∧
      some TransportError.connectionIDLimit ≠ some TransportError.protocolViolation) ∧
    (some TransportError.connectionIDLimit = some TransportError.connectionIDLimit ↔
      c2wS.remote.countP (fun r => !r.retired) > 1 ∨ c2wS.remote.length > 4 * 1) :=
  ⟨⟨by decide, by decide⟩,
    handleNewConnID_limit_check 1 c2w 1 0 [2] [41] c2wS
      [TableOp.addResetToken [41]] (some TransportError.connectionIDLimit)
      (by decide) (by decide)⟩

/-- Claim C4, counterexample: when the stored remote head has a zero-length
CID, a NEW_CONNECTION_ID carrying the identical `(seq, cid)` pair still
returns PROTOCOL_VIOLATION (the zero-length-destination check fires first),
so the call is not idempotent-and-error-free as the claim states. -/
theorem handleNewConnID_duplicate_seq_cex :
    (∃ r ∈ cexS4.remote, r.seq = 0 ∧ r.cid = ([] : List Nat)) ∧
    handleNewConnID 2 cexS4 0 0 [] [50] =
      some (cexS4, [], some TransportError.protocolViolation) := by
  exact ⟨by decide, rfl⟩

/-- Claim C4, witness: applying the duplicate-sequence theorem at a concrete
state where the incoming `(seq, cid)` pair equals the stored entry: no error,
no append, no token registration. -/
theorem handleNewConnID_duplicate_seq_witness :
    (c4w.remote = ⟨⟨[3], 0, false, false⟩, [60]⟩ :: [] ∧
      (⟨⟨[3], 0, false, false⟩, [60]⟩ : RemoteConnID).cid ≠ [] ∧
      handleNewConnID 2 c4w 0 0 [3] [61] = some (c4w, [], none)) ∧
    (((none : Option TransportError) = some TransportError.protocolViolation ↔
        ∃ r ∈ c4w.remote, r.seq = 0 ∧ r.cid ≠ [3]) ∧
      ((∃ r ∈ c4w.remote, r.seq = 0) → (∀ r ∈ c4w.remote, r.seq = 0 → r.cid = [3]) →
        c4w.remote.length = c4w.remote.length ∧
          ∀ t, TableOp.addResetToken t ∉ ([] : List TableOp))) :=
  ⟨⟨rfl, by decide, by decide⟩,
    handleNewConnID_duplicate_seq 2 c4w 0 0 [3] [61] _ [] c4w [] none
      rfl (by decide) (by decide)⟩


/-- Unfolding of `newLocalIDs` at a successor count: the first issued entry
uses `start`, the rest start at `start + 1`. -/
theorem newLocalIDs_succ (gen : Int → List Nat) (start : Int) (n : Nat) :
    newLocalIDs gen start (n + 1) =
      ⟨gen start, start, false, true⟩ :: newLocalIDs gen (start + 1) n := by
  unfold newLocalIDs
  rw [List.range_succ_eq_map, List.map_cons, List.map_map]
  congr 1
  · simp
  · apply List.map_congr_left
    intro i _
    simp only [Function.comp_apply, Nat.succ_eq_add_one]
    push_cast
    rw [show start + ((i : Int) + 1) = start + 1 + (i : Int) from by ring]

/-- Closed form of the issue loop: it appends `newLocalIDs`, advances
`nextLocalSeq` by `n`, sets `needSend` when it issued anything, and returns
the new CIDs in order. -/
theorem issueLoop_spec (gen : Int → List Nat) (n : Nat) (s : ConnIDState) :
    issueLoop gen n s =
      ({ s with locals := s.locals ++ newLocalIDs gen s.nextLocalSeq n,
                nextLocalSeq := s.nextLocalSeq + n,
                needSend := if n = 0 then s.needSend else true },
        (newLocalIDs gen s.nextLocalSeq n).map ConnID.cid) := by
  induction n generalizing s with
  | zero => simp [issueLoop, newLocalIDs]
  | succ n ih =>
    simp only [issueLoop, ih, newLocalIDs_succ, List.map_cons, Prod.mk.injEq]
    refine ⟨?_, by trivial⟩
    simp only [ConnIDState.mk.injEq]
    refine ⟨?_, by trivial, ?_, by trivial, by trivial, ?_⟩
    · simp [List.append_assoc]
    · push_cast; ring
    · cases n <;> simp

/-- Every entry issued from a nonnegative start is non-transient and
non-retired. -/
theorem nonTransientActive_newLocalIDs (gen : Int → List Nat) (start : Int)
    (n : Nat) (h : 0 ≤ start) :
    nonTransientActive (newLocalIDs gen start n) = n := by
  have hall : ∀ l ∈ newLocalIDs gen start n,
      (decide (l.seq ≠ -1) && !l.retired) = true := by
    intro l hl
    simp only [newLocalIDs, List.mem_map, List.mem_range] at hl
    obtain ⟨i, hi, rfl⟩ := hl
    simp only [Bool.and_eq_true, decide_eq_true_eq, Bool.not_eq_true']
    refine ⟨?_, by trivial⟩
    omega
  calc nonTransientActive (newLocalIDs gen start n)
      = (newLocalIDs gen start n).length := List.countP_eq_length.mpr hall
    _ = n := by simp [newLocalIDs]

/-- The issued sequence numbers are strictly increasing. -/
theorem newLocalIDs_strict_mono (gen : Int → List Nat) (start : Int) (n : Nat) :
    (newLocalIDs gen start n).Pairwise (fun a b => a.seq < b.seq) := by
  unfold newLocalIDs
  rw [List.pairwise_map]
  have h := List.pairwise_lt_range n
  exact h.imp (by intro a b hab; simp only []; omega)

/-- Claim C3 (amended): `setPeerActiveConnIDLimit(lim)` stores `lim` and then
issues exactly `max 0 (min lim maxPeer - k)` new local CIDs, where `k` is the
current count of non-retired non-transient local CIDs, with strictly
increasing sequence numbers starting at `nextLocalSeq`, enqueuing `addConnID`
for each; afterwards the non-retired non-transient count is
`max k (min lim maxPeer)` — which is at most `min lim maxPeer` exactly when
it already was. (The original bound fails for transient entries and for
states already above the limit.) -/
theorem setPeerActiveConnIDLimit_spec (maxPeer : Int) (gen : Int → List Nat)
    (s : ConnIDState) (lim : Int) (hseq : 0 ≤ s.nextLocalSeq) :
    (setPeerActiveConnIDLimit maxPeer gen s lim).1.peerActiveConnIDLimit = lim ∧
    (setPeerActiveConnIDLimit maxPeer gen s lim).1.locals =
      s.locals ++ newLocalIDs gen s.nextLocalSeq
        (min lim maxPeer - (nonTransientActive s.locals : Int)).toNat ∧
    (setPeerActiveConnIDLimit maxPeer gen s lim).2 =
      (newLocalIDs gen s.nextLocalSeq
        (min lim maxPeer - (nonTransientActive s.locals : Int)).toNat).map
        (fun c => TableOp.addConnID c.cid) ∧
    (newLocalIDs gen s.nextLocalSeq
      (min lim maxPeer - (nonTransientActive s.locals : Int)).toNat).Pairwise
      (fun a b => a.seq < b.seq) ∧
    (nonTransientActive (setPeerActiveConnIDLimit maxPeer gen s lim).1.locals : Int) =
      max (nonTransientActive s.locals : Int) (min lim maxPeer) := by
  have h1 : setPeerActiveConnIDLimit maxPeer gen s lim =
      ((issueLoop gen (min lim maxPeer - (nonTransientActive s.locals : Int)).toNat
          { s with peerActiveConnIDLimit := lim }).1,
        (issueLoop gen (min lim maxPeer - (nonTransientActive s.locals : Int)).toNat
          { s with peerActiveConnIDLimit := lim }).2.map TableOp.addConnID) := rfl
  rw [h1, issueLoop_spec]
  refine ⟨rfl, rfl, ?_, ?_, ?_⟩
  · rw [List.map_map]
    rfl
  · exact newLocalIDs_strict_mono gen s.nextLocalSeq _
  · have h5 : nonTransientActive (s.locals ++ newLocalIDs gen s.nextLocalSeq
        (min lim maxPeer - (nonTransientActive s.locals : Int)).toNat) =
        nonTransientActive s.locals +
          (min lim maxPeer - (nonTransientActive s.locals : Int)).toNat := by
      have h6 := nonTransientActive_newLocalIDs gen s.nextLocalSeq
        (min lim maxPeer - (nonTransientActive s.locals : Int)).toNat hseq
      simp only [nonTransientActive, List.countP_append] at h6 ⊢
      omega
    have hgoal : nonTransientActive
        (({ s with peerActiveConnIDLimit := lim } : ConnIDState).locals ++
          newLocalIDs gen s.nextLocalSeq
            (min lim maxPeer - (nonTransientActive s.locals : Int)).toNat) =
        nonTransientActive s.locals +
          (min lim maxPeer - (nonTransientActive s.locals : Int)).toNat := h5
    rw [hgoal]
    push_cast
    omega

/-- Closed form of `issueLocalIDs`. -/
theorem issueLocalIDs_spec (maxPeer : Int) (gen : Int → List Nat) (s : ConnIDState) :
    issueLocalIDs maxPeer gen s =
      ({ s with
          locals := s.locals ++ newLocalIDs gen s.nextLocalSeq
            (min s.peerActiveConnIDLimit maxPeer -
              (nonTransientActive s.locals : Int)).toNat,
          nextLocalSeq := s.nextLocalSeq +
            (min s.peerActiveConnIDLimit maxPeer -
              (nonTransientActive s.locals : Int)).toNat,
          needSend := if (min s.peerActiveConnIDLimit maxPeer -
              (nonTransientActive s.locals : Int)).toNat = 0 then s.needSend
            else true },
        (newLocalIDs gen s.nextLocalSeq
          (min s.peerActiveConnIDLimit maxPeer -
            (nonTransientActive s.locals : Int)).toNat).map
          (fun c => TableOp.addConnID c.cid)) := by
  have h0 : issueLocalIDs maxPeer gen s =
      ((issueLoop gen (min s.peerActiveConnIDLimit maxPeer -
          (nonTransientActive s.locals : Int)).toNat s).1,
        (issueLoop gen (min s.peerActiveConnIDLimit maxPeer -
          (nonTransientActive s.locals : Int)).toNat s).2.map TableOp.addConnID) := rfl
  rw [h0, issueLoop_spec, List.map_map]
  rfl

/-- The removal loop of `handleRetireConnID` removes exactly the first entry
matching the sequence number (`List.eraseP`). -/
theorem removeLocalSeq_fst (seq : Int) (ls : List ConnID) :
    (removeLocalSeq seq ls).1 = ls.eraseP (fun l => decide (l.seq = seq)) := by
  induction ls with
  | nil => simp [removeLocalSeq]
  | cons l ls ih =>
    simp only [removeLocalSeq, List.eraseP_cons]
    by_cases h : l.seq = seq
    · simp [h]
    · simp [h, ih]

/-- The removal loop enqueues `retireConnID` for the first matching entry
(`List.find?`), and nothing otherwise. -/
theorem removeLocalSeq_snd (seq : Int) (ls : List ConnID) :
    (removeLocalSeq seq ls).2 =
      (match ls.find? (fun l => decide (l.seq = seq)) with
        | some l => [TableOp.retireConnID l.cid]
        | none => []) := by
  induction ls with
  | nil => simp [removeLocalSeq]
  | cons l ls ih =>
    simp only [removeLocalSeq, List.find?]
    by_cases h : l.seq = seq
    · simp [h]
    · simp [h, ih]

/-- With distinct local sequence numbers, no entry surviving the removal loop
carries the removed sequence number. -/
theorem removeLocalSeq_no_seq (seq : Int) (ls : List ConnID)
    (hnd : (ls.map ConnID.seq).Nodup) :
    ∀ l ∈ (removeLocalSeq seq ls).1, l.seq ≠ seq := by
  induction ls with
  | nil => simp [removeLocalSeq]
  | cons a ls ih =>
    simp only [List.map_cons, List.nodup_cons] at hnd
    obtain ⟨hna, hnd'⟩ := hnd
    simp only [removeLocalSeq]
    by_cases h : a.seq = seq
    · rw [if_pos h]
      intro l hl hls
      exact hna (List.mem_map.mpr ⟨l, hl, by rw [hls, h]⟩)
    · rw [if_neg h]
      intro l hl
      rcases List.mem_cons.mp hl with rfl | hl
      · exact h
      · exact ih hnd' l hl

/-- With distinct local sequence numbers, the removal loop enqueues
`retireConnID` for every entry carrying the removed sequence number. -/
theorem removeLocalSeq_mem_ops (seq : Int) (ls : List ConnID)
    (hnd : (ls.map ConnID.seq).Nodup) :
    ∀ l ∈ ls, l.seq = seq →
      TableOp.retireConnID l.cid ∈ (removeLocalSeq seq ls).2 := by
  induction ls with
  | nil => simp
  | cons a ls ih =>
    simp only [List.map_cons, List.nodup_cons] at hnd
    obtain ⟨hna, hnd'⟩ := hnd
    simp only [removeLocalSeq]
    intro l hl hls
    rcases List.mem_cons.mp hl with rfl | hl
    · rw [if_pos hls]
      exact List.mem_singleton_self _
    · by_cases h : a.seq = seq
      · exact absurd (List.mem_map.mpr ⟨l, hl, by rw [hls, h]⟩) hna
      · rw [if_neg h]
        exact ih hnd' l hl hls

/-- Claim C7: `handleRetireConnID(conn, seq)` returns PROTOCOL_VIOLATION
exactly when `seq ≥ nextLocalSeq`; otherwise (given distinct local sequence
numbers) it removes the first local entry with that sequence number, enqueues
`retireConnID` for its CID followed by the `addConnID`s of the refill issued
by `issueLocalIDs`, and afterwards no local entry carries the retired
sequence number. -/
theorem handleRetireConnID_spec (maxPeer : Int) (gen : Int → List Nat)
    (s : ConnIDState) (seq : Int) (hnd : (s.locals.map ConnID.seq).Nodup) :
    ((handleRetireConnID maxPeer gen s seq).2.2 =
        some TransportError.protocolViolation ↔ s.nextLocalSeq ≤ seq) ∧
    (seq < s.nextLocalSeq →
      (handleRetireConnID maxPeer gen s seq).2.2 = none ∧
      (handleRetireConnID maxPeer gen s seq).1.locals =
        s.locals.eraseP (fun l => decide (l.seq = seq)) ++
          newLocalIDs gen s.nextLocalSeq
            (min s.peerActiveConnIDLimit maxPeer -
              (nonTransientActive
                (s.locals.eraseP (fun l => decide (l.seq = seq))) : Int)).toNat ∧
      (handleRetireConnID maxPeer gen s seq).2.1 =
        (match s.locals.find? (fun l => decide (l.seq = seq)) with
          | some l => [TableOp.retireConnID l.cid]
          | none => []) ++
          (newLocalIDs gen s.nextLocalSeq
            (min s.peerActiveConnIDLimit maxPeer -
              (nonTransientActive
                (s.locals.eraseP (fun l => decide (l.seq = seq))) : Int)).toNat).map
            (fun c => TableOp.addConnID c.cid) ∧
      (∀ l ∈ s.locals, l.seq = seq →
        TableOp.retireConnID l.cid ∈ (handleRetireConnID maxPeer gen s seq).2.1) ∧
      (∀ l ∈ (handleRetireConnID maxPeer gen s seq).1.locals, l.seq ≠ seq)) := by
  constructor
  · by_cases hle : s.nextLocalSeq ≤ seq
    · simp [handleRetireConnID, hle]
    · simp [handleRetireConnID, hle]
  · intro hlt
    have hle : ¬s.nextLocalSeq ≤ seq := by omega
    have hunf : handleRetireConnID maxPeer gen s seq =
        ((issueLocalIDs maxPeer gen
            { s with locals := (removeLocalSeq seq s.locals).1 }).1,
          (removeLocalSeq seq s.locals).2 ++
            (issueLocalIDs maxPeer gen
              { s with locals := (removeLocalSeq seq s.locals).1 }).2,
          none) := by
      rw [handleRetireConnID, if_neg hle]
    rw [hunf, issueLocalIDs_spec]
    refine ⟨rfl, ?_, ?_, ?_, ?_⟩
    · simp only [removeLocalSeq_fst]
    · simp only [removeLocalSeq_fst, removeLocalSeq_snd]
    · intro l hl hls
      exact List.mem_append_left _ (removeLocalSeq_mem_ops seq s.locals hnd l hl hls)
    · intro l hl
      simp only [List.mem_append] at hl
      rcases hl with hl | hl
      · exact removeLocalSeq_no_seq seq s.locals hnd l hl
      · simp only [newLocalIDs, List.mem_map, List.mem_range] at hl
        obtain ⟨i, hi, rfl⟩ := hl
        simp only []
        omega


/-- Claim C3, counterexample: with the peer limit set to 0 while one
non-retired local CID exists, `setPeerActiveConnIDLimit` issues nothing and
the number of non-retired local CIDs stays 1, exceeding
`min(lim, maxPeer) = 0`: the claimed bound does not hold for states already
above the new limit (and a transient local CID is likewise not counted by
the code). -/
theorem setPeerActiveConnIDLimit_cex :
    (setPeerActiveConnIDLimit 4 genZero cexS3 0).1.locals.countP
        (fun l => !l.retired) = 1 ∧
    min (0 : Int) 4 = 0 ∧
    ¬(((setPeerActiveConnIDLimit 4 genZero cexS3 0).1.locals.countP
        (fun l => !l.retired) : Int) ≤ min (0 : Int) 4) := by
  refine ⟨?_, ?_, ?_⟩ <;> decide

/-- Claim C3, witness: applying the amended theorem at a state holding one
active local CID while the peer announces limit 3 (capped by 4): two CIDs
are issued with sequence numbers 1 and 2. -/
theorem setPeerActiveConnIDLimit_witness :
    (0 : Int) ≤ c3w.nextLocalSeq ∧
    ((setPeerActiveConnIDLimit 4 genW c3w 3).1.peerActiveConnIDLimit = 3 ∧
      (setPeerActiveConnIDLimit 4 genW c3w 3).1.locals =
        c3w.locals ++ newLocalIDs genW c3w.nextLocalSeq
          (min 3 4 - (nonTransientActive c3w.locals : Int)).toNat ∧
      (setPeerActiveConnIDLimit 4 genW c3w 3).2 =
        (newLocalIDs genW c3w.nextLocalSeq
          (min 3 4 - (nonTransientActive c3w.locals : Int)).toNat).map
          (fun c => TableOp.addConnID c.cid) ∧
      (newLocalIDs genW c3w.nextLocalSeq
        (min 3 4 - (nonTransientActive c3w.locals : Int)).toNat).Pairwise
        (fun a b => a.seq < b.seq) ∧
      (nonTransientActive (setPeerActiveConnIDLimit 4 genW c3w 3).1.locals : Int) =
        max (nonTransientActive c3w.locals : Int) (min 3 4)) :=
  ⟨by decide, setPeerActiveConnIDLimit_spec 4 genW c3w 3 (by decide)⟩

/-- Claim C7, witness: applying the theorem at a concrete state (transient
plus sequence numbers 0 and 1, `nextLocalSeq = 2`) retiring sequence 0. -/
theorem handleRetireConnID_spec_witness :
    (c7w.locals.map ConnID.seq).Nodup ∧
    (((handleRetireConnID 4 genW c7w 0).2.2 =
        some TransportError.protocolViolation ↔ c7w.nextLocalSeq ≤ 0) ∧
      ((0 : Int) < c7w.nextLocalSeq →
        (handleRetireConnID 4 genW c7w 0).2.2 = none ∧
        (handleRetireConnID 4 genW c7w 0).1.locals =
          c7w.locals.eraseP (fun l => decide (l.seq = 0)) ++
            newLocalIDs genW c7w.nextLocalSeq
              (min c7w.peerActiveConnIDLimit 4 -
                (nonTransientActive
                  (c7w.locals.eraseP (fun l => decide (l.seq = 0))) : Int)).toNat ∧
        (handleRetireConnID 4 genW c7w 0).2.1 =
          (match c7w.locals.find? (fun l => decide (l.seq = 0)) with
            | some l => [TableOp.retireConnID l.cid]
            | none => []) ++
            (newLocalIDs genW c7w.nextLocalSeq
              (min c7w.peerActiveConnIDLimit 4 -
                (nonTransientActive
                  (c7w.locals.eraseP (fun l => decide (l.seq = 0))) : Int)).toNat).map
              (fun c => TableOp.addConnID c.cid) ∧
        (∀ l ∈ c7w.locals, l.seq = 0 →
          TableOp.retireConnID l.cid ∈ (handleRetireConnID 4 genW c7w 0).2.1) ∧
        (∀ l ∈ (handleRetireConnID 4 genW c7w 0).1.locals, l.seq ≠ 0))) :=
  ⟨by decide, handleRetireConnID_spec 4 genW c7w 0 (by decide)⟩


/-- The version field a successful generic long-header parse returns is the
big-endian 32-bit integer in bytes 1 through 4. -/
theorem parse_version_eq (b : List Nat) (p : GenericLongPacket)
    (h : parseGenericLongHeaderPacket b = some p) :
    p.version = beUint32 ((b.drop 1).take 4) := by
  match b with
  | [] => simp [parseGenericLongHeaderPacket] at h
  | b0 :: r =>
    simp only [parseGenericLongHeaderPacket] at h
    split at h
    · exact absurd h (by simp)
    · split at h
      · exact absurd h (by simp)
      · rename_i dl r2 hd
        split at h
        · exact absurd h (by simp)
        · split at h
          · exact absurd h (by simp)
          · rename_i sl r4 hs
            split at h
            · exact absurd h (by simp)
            · rw [Option.some.injEq] at h
              subst h
              rfl

/-- Claim C5 (amended): for a long-header datagram with unknown destination,
at least 21 bytes, and no matching reset token: a zero version field always
drops with no emission, and an unsupported nonzero version draws a Version
Negotiation (source and destination connection IDs swapped, listing the
supported version) provided the datagram parses as a generic long-header
packet and is at least 1200 bytes; otherwise it too is dropped. -/
theorem handleUnknownDatagram_version_dispatch
    (resetTokens : List (List Nat)) (canReset : Bool)
    (tokenForConnID : List Nat → List Nat) (randBytes : Nat → List Nat)
    (b : List Nat)
    (hlen : minimumValidPacketSize ≤ b.length)
    (htok : lastN statelessResetTokenLen b ∉ resetTokens)
    (hlong : isLongHeader (b.headD 0) = true) :
    (beUint32 ((b.drop 1).take 4) = 0 →
      handleUnknownDestinationDatagram resetTokens canReset tokenForConnID
        randBytes b = UnknownDatagramAction.drop) ∧
    (∀ p, parseGenericLongHeaderPacket b = some p →
      paddedInitialDatagramSize ≤ b.length → p.version ≠ 0 →
      p.version ≠ quicVersion1 →
      handleUnknownDestinationDatagram resetTokens canReset tokenForConnID
        randBytes b =
        UnknownDatagramAction.sendVersionNegotiation p.srcConnID p.dstConnID
          [quicVersion1]) := by
  have hbase : handleUnknownDestinationDatagram resetTokens canReset
      tokenForConnID randBytes b =
      (match parseGenericLongHeaderPacket b with
        | none => UnknownDatagramAction.drop
        | some p =>
          if b.length < paddedInitialDatagramSize then UnknownDatagramAction.drop
          else if p.version = quicVersion1 then UnknownDatagramAction.continueV1 p
          else if p.version = 0 then UnknownDatagramAction.drop
          else UnknownDatagramAction.sendVersionNegotiation p.srcConnID
            p.dstConnID [quicVersion1]) := by
    simp only [handleUnknownDestinationDatagram]
    rw [if_neg (Nat.not_lt.mpr hlen), if_neg htok, if_neg (by simpa using hlong)]
  constructor
  · intro hv0
    rw [hbase]
    rcases hp : parseGenericLongHeaderPacket b with _ | p
    · rfl
    · have hver := parse_version_eq b p hp
      rw [hv0] at hver
      by_cases hl : b.length < paddedInitialDatagramSize
      · simp [hl]
      · simp [hl, hver, quicVersion1]
  · intro p hp h1200 hv0 hv1
    rw [hbase, hp]
    simp [Nat.not_lt.mpr h1200, hv1, hv0]

set_option maxRecDepth 40000 in
/-- Claim C5, counterexample: a well-formed long-header datagram with
unsupported version 2, 30 bytes long (≥ 21), with no matching token, is
dropped rather than answered with Version Negotiation, because it is shorter
than the 1200-byte padded-Initial minimum. -/
theorem handleUnknownDatagram_version_dispatch_cex :
    cexB5.length = 30 ∧ isLongHeader (cexB5.headD 0) = true ∧
    lastN statelessResetTokenLen cexB5 ∉ ([] : List (List Nat)) ∧
    parseGenericLongHeaderPacket cexB5 = some ⟨2, [], []⟩ ∧
    handleUnknownDestinationDatagram [] false (fun _ => List.replicate 16 0)
      (fun n => List.replicate n 0) cexB5 = UnknownDatagramAction.drop := by
  refine ⟨?_, ?_, ?_, ?_, ?_⟩ <;> decide

set_option maxRecDepth 40000 in
/-- Claim C5, witness: a 1200-byte long-header datagram with version 2 draws
a Version Negotiation with the connection IDs swapped. -/
theorem handleUnknownDatagram_version_dispatch_witness :
    (minimumValidPacketSize ≤ wB5.length ∧
      lastN statelessResetTokenLen wB5 ∉ ([] : List (List Nat)) ∧
      isLongHeader (wB5.headD 0) = true ∧
      parseGenericLongHeaderPacket wB5 = some ⟨2, [7], [9]⟩ ∧
      paddedInitialDatagramSize ≤ wB5.length) ∧
    handleUnknownDestinationDatagram [] false (fun _ => List.replicate 16 0)
      (fun n => List.replicate n 0) wB5 =
      UnknownDatagramAction.sendVersionNegotiation [9] [7] [quicVersion1] :=
  ⟨⟨by decide, by decide, by decide, by decide, by decide⟩,
    (handleUnknownDatagram_version_dispatch [] false (fun _ => List.replicate 16 0)
        (fun n => List.replicate n 0) wB5 (by decide) (by decide) (by decide)).2
      ⟨2, [7], [9]⟩ (by decide) (by decide) (by decide) (by decide)⟩

/-- Adjusting the first byte does not change the length. -/
theorem adjustFirst_length (l : List Nat) : (adjustFirst l).length = l.length := by
  cases l <;> simp [adjustFirst]

/-- Claim C6: for a short-header datagram with unknown destination and no
matching reset token, with a reset key configured: inputs shorter than
`1 + connIDLen + 1 + 1 + 16` bytes are dropped; otherwise a stateless reset
of exactly `min (len - 1) 42` bytes is sent — strictly shorter than the
input — whose last 16 bytes are the token for input bytes 1 through
`1 + connIDLen`. -/
theorem handleUnknownDatagram_stateless_reset
    (resetTokens : List (List Nat)) (tokenForConnID : List Nat → List Nat)
    (randBytes : Nat → List Nat) (b : List Nat)
    (hrand : ∀ n, (randBytes n).length = n)
    (htokLen : ∀ c, (tokenForConnID c).length = statelessResetTokenLen)
    (hlen : minimumValidPacketSize ≤ b.length)
    (htok : lastN statelessResetTokenLen b ∉ resetTokens)
    (hshort : ¬isLongHeader (b.headD 0) = true) :
    (b.length < 1 + connIDLen + 1 + 1 + 16 →
      handleUnknownDestinationDatagram resetTokens true tokenForConnID
        randBytes b = UnknownDatagramAction.drop) ∧
    (1 + connIDLen + 1 + 1 + 16 ≤ b.length →
      ∃ pkt, handleUnknownDestinationDatagram resetTokens true tokenForConnID
          randBytes b = UnknownDatagramAction.sendStatelessReset pkt ∧
        pkt.length = min (b.length - 1) 42 ∧
        pkt.length < b.length ∧
        lastN statelessResetTokenLen pkt =
          tokenForConnID ((b.drop 1).take connIDLen)) := by
  have hbase : handleUnknownDestinationDatagram resetTokens true tokenForConnID
      randBytes b =
      (match maybeSendStatelessReset true tokenForConnID randBytes b with
        | some pkt => UnknownDatagramAction.sendStatelessReset pkt
        | none => UnknownDatagramAction.drop) := by
    simp only [handleUnknownDestinationDatagram]
    rw [if_neg (Nat.not_lt.mpr hlen), if_neg htok, if_pos hshort]
  have hc8 : connIDLen = 8 := rfl
  have hs16 : statelessResetTokenLen = 16 := rfl
  constructor
  · intro hsmall
    rw [hbase]
    have hnone : maybeSendStatelessReset true tokenForConnID randBytes b = none := by
      simp only [maybeSendStatelessReset]
      rw [if_neg (by simp), if_pos hsmall]
    rw [hnone]
  · intro hbig
    rw [hbase]
    have hsome : maybeSendStatelessReset true tokenForConnID randBytes b =
        some (adjustFirst (randBytes (min (b.length - 1) 42 - statelessResetTokenLen)) ++
          tokenForConnID ((b.drop 1).take connIDLen)) := by
      simp only [maybeSendStatelessReset]
      rw [if_neg (by simp), if_neg (Nat.not_lt.mpr hbig)]
    rw [hsome]
    refine ⟨_, rfl, ?_, ?_, ?_⟩
    · rw [List.length_append, adjustFirst_length, hrand, htokLen]
      omega
    · rw [List.length_append, adjustFirst_length, hrand, htokLen]
      omega
    · have hlen16 := htokLen ((b.drop 1).take connIDLen)
      simp only [lastN, List.length_append, adjustFirst_length, hlen16,
        Nat.add_sub_cancel]
      rw [← adjustFirst_length (randBytes (min (b.length - 1) 42 - statelessResetTokenLen))]
      exact List.drop_left _ _

set_option maxRecDepth 40000 in
/-- Claim C6, witness: a 30-byte short-header datagram with a configured key
draws a stateless reset of `min 29 42 = 29` bytes ending in the token. -/
theorem handleUnknownDatagram_stateless_reset_witness :
    ((∀ n, (List.replicate n 9).length = n) ∧
      (∀ _x : List Nat, (List.replicate 16 3).length = statelessResetTokenLen) ∧
      minimumValidPacketSize ≤ wB6.length ∧
      lastN statelessResetTokenLen wB6 ∉ ([] : List (List Nat)) ∧
      ¬isLongHeader (wB6.headD 0) = true ∧
      1 + connIDLen + 1 + 1 + 16 ≤ wB6.length) ∧
    (∃ pkt, handleUnknownDestinationDatagram [] true (fun _ => List.replicate 16 3)
        (fun n => List.replicate n 9) wB6 =
        UnknownDatagramAction.sendStatelessReset pkt ∧
      pkt.length = min (wB6.length - 1) 42 ∧
      pkt.length < wB6.length ∧
      lastN statelessResetTokenLen pkt = List.replicate 16 3) :=
  ⟨⟨fun n => by simp, fun c => by simp [statelessResetTokenLen], by decide,
      by decide, by decide, by decide⟩,
    (handleUnknownDatagram_stateless_reset [] (fun _ => List.replicate 16 3)
        (fun n => List.replicate n 9) wB6 (fun n => by simp)
        (fun c => by simp [statelessResetTokenLen]) (by decide) (by decide)
        (by decide)).2 (by decide)⟩

/-- Once `closing` is set, `newConn` fails and leaves the state unchanged. -/
theorem listenerNewConn_closing (s : ListenerState) (h : s.closing = true)
    (c : Nat) :
    (listenerNewConn s c).2 = false ∧ (listenerNewConn s c).1 = s := by
  simp [listenerNewConn, h]

/-- Claim C8: in every reachable listener state, once `closing` holds no new
conn is created (`newConn` fails for server admission and Dial alike), and
the UDP socket is closed exactly in the states where `closing` holds and the
conn set is empty — the call to close it happens at the transition into that
condition, in `Close` or in the last `connDrained`. -/
theorem listener_socket_closing_invariant (s : ListenerState)
    (h : ListenerReachable s) :
    (s.closing = true → ∀ c, (listenerNewConn s c).2 = false ∧
      (listenerNewConn s c).1 = s) ∧
    s.socketClosed = (s.closing && s.conns.isEmpty) := by
  induction h with
  | init => exact ⟨fun h _ => listenerNewConn_closing _ h _, rfl⟩
  | step s e hs ih =>
    refine ⟨fun hcl c => listenerNewConn_closing _ hcl c, ?_⟩
    cases e with
    | newConn c =>
      simp only [listenerStep, listenerNewConn]
      by_cases hcl : s.closing
      · rw [if_pos hcl]
        exact ih.2
      · rw [if_neg hcl]
        have hc : s.closing = false := by simpa using hcl
        have h2 := ih.2
        rw [hc] at h2
        simp only [Bool.false_and] at h2
        simp [h2, hc]
    | close =>
      simp only [listenerStep, listenerClose]
      by_cases hcl : s.closing
      · rw [if_pos hcl]
        exact ih.2
      · rw [if_neg hcl]
        have hc : s.closing = false := by simpa using hcl
        have h2 := ih.2
        rw [hc] at h2
        simp only [Bool.false_and] at h2
        simp [h2, hc]
    | connDrained c =>
      simp only [listenerStep, listenerConnDrained]
      rw [ih.2]
      by_cases hcl : s.closing = true
      · rw [hcl]
        simp only [Bool.true_and]
        cases hc : s.conns with
        | nil => simp [hc]
        | cons x xs => simp [hc]
      · have hc : s.closing = false := by simpa using hcl
        simp [hc]

/-- Claim C8, witness: applying the invariant to the reachable state where a
conn was admitted, `Close` was called, and the conn then drained — the
socket closes at that last transition. -/
theorem listener_socket_closing_invariant_witness :
    ListenerReachable c8w ∧
    ((c8w.closing = true → ∀ c, (listenerNewConn c8w c).2 = false ∧
        (listenerNewConn c8w c).1 = c8w) ∧
      c8w.socketClosed = (c8w.closing && c8w.conns.isEmpty)) :=
  ⟨ListenerReachable.step _ _ (ListenerReachable.step _ _
      (ListenerReachable.step _ _ ListenerReachable.init)),
    listener_socket_closing_invariant c8w
      (ListenerReachable.step _ _ (ListenerReachable.step _ _
        (ListenerReachable.step _ _ ListenerReachable.init)))⟩

end QuicNet
